import Mathlib

/-!
Verification development for the picturec repository (MazinLab/picturec).

The sources embedded here are:
  - `src/configuration/picturec.yml` (the configuration defaults document),
  - `src/hardware/thermometry/PID_Control.txt` (the SIM921 conditioning
    equation and the polarity derivation walk-through),
  - `src/unnamed/part_000` (heat-switch controller firmware, v0.2, a superset
    of `src/arduino/magnetArduino_v0.1/magnetArduino_v0.1.ino`),
  - `src/arduino/readHemtBiases_v0.2/readHemtBiases_v0.2.ino` (the framed
    serial receiver).
Parts of the coordination layer that exist only in the specification (the
cooldown state machine guard and the output clamping) are modelled from the
spec text and marked as such in their doc comments.
-/

/-! ## Configuration defaults document (`src/configuration/picturec.yml`) -/

/-- A value in the YAML configuration defaults document: a scalar string,
number or boolean, or a nested group of named settings. -/
inductive ConfigVal where
  | str (s : String)
  | num (q : ℚ)
  | bool (b : Bool)
  | group (entries : List (String × ConfigVal))

/-- Keys of a settings group, in document order. -/
def groupKeys (es : List (String × ConfigVal)) : List String :=
  es.map Prod.fst

/-- Look up the value stored under key `k` in a settings group. -/
def lookupEntry (es : List (String × ConfigVal)) (k : String) :
    Option ConfigVal :=
  (es.find? (fun e => e.fst == k)).map Prod.snd

/-- The nested group stored under key `k` (empty if absent or scalar). -/
def groupAt (es : List (String × ConfigVal)) (k : String) :
    List (String × ConfigVal) :=
  match lookupEntry es k with
  | some (ConfigVal.group g) => g
  | _ => []

/-- The numeric value stored under key `k` (0 if absent or non-numeric). -/
def numAt (es : List (String × ConfigVal)) (k : String) : ℚ :=
  match lookupEntry es k with
  | some (ConfigVal.num q) => q
  | _ => 0

/-- The string value stored under key `k` (empty if absent or non-string). -/
def strAt (es : List (String × ConfigVal)) (k : String) : String :=
  match lookupEntry es k with
  | some (ConfigVal.str s) => s
  | _ => ""

/-- The `defaults: device-settings:` tree of `src/configuration/picturec.yml`,
transcribed entry for entry in document order.  YAML floats are exact
rationals here (e.g. `19400.5` is `38801/2`, `1e-5` is `1/100000`,
`1.6e1` is `16`). -/
def deviceSettingsDefaults : List (String × ConfigVal) :=
  [("hemtduino", ConfigVal.group
      [("hemts-enabled", ConfigVal.bool false)]),
   ("currentduino", ConfigVal.group
      [("highcurrentboard", ConfigVal.str "off"),
       ("heatswitch", ConfigVal.str "close")]),
   ("ls240", ConfigVal.group
      [("lhe-profile", ConfigVal.str "linear"),
       ("ln2-profile", ConfigVal.str "linear")]),
   ("sim921", ConfigVal.group
      [("resistance-range", ConfigVal.num 20000),
       ("excitation-value", ConfigVal.num (100 / 1000000)),
       ("excitation-mode", ConfigVal.str "voltage"),
       ("time-constant", ConfigVal.num 3),
       ("temp-offset", ConfigVal.num (100 / 1000)),
       ("temp-slope", ConfigVal.num (1 / 100)),
       ("resistance-offset", ConfigVal.num (38801 / 2)),
       ("resistance-slope", ConfigVal.num (1 / 100000)),
       ("curve-profile", ConfigVal.str "linear"),
       ("curve-channel", ConfigVal.num 1),
       ("manual-vout", ConfigVal.num 0),
       ("output-mode", ConfigVal.str "manual")]),
   ("sim960", ConfigVal.group
      [("mode", ConfigVal.str "manual"),
       ("vout-min-limit", ConfigVal.num (-(1 / 10))),
       ("vout-max-limit", ConfigVal.num 10),
       ("pid", ConfigVal.group
          [("polarity", ConfigVal.str "-"),
           ("mode", ConfigVal.str "pi"),
           ("p", ConfigVal.num 16),
           ("i", ConfigVal.num (2 / 10)),
           ("d", ConfigVal.num 0)]),
       ("setpoint-mode", ConfigVal.str "internal"),
       ("pid-control-vin-setpoint", ConfigVal.num 0),
       ("ramp-rate", ConfigVal.num (1 / 1000)),
       ("ramp-enable", ConfigVal.bool true),
       ("vout-value", ConfigVal.num 0)])]

/-- The `sim921` settings group of the defaults document. -/
def sim921Settings : List (String × ConfigVal) :=
  groupAt deviceSettingsDefaults "sim921"

/-- The `sim960` settings group of the defaults document. -/
def sim960Settings : List (String × ConfigVal) :=
  groupAt deviceSettingsDefaults "sim960"

/-- The configured `sim921.resistance-offset` (ohms at the 100 mK operating
point). -/
def resistanceOffset : ℚ := numAt sim921Settings "resistance-offset"

/-- The configured `sim921.resistance-slope` (the SIM921 analog-output scale
`Aout`, in volts per ohm). -/
def resistanceSlope : ℚ := numAt sim921Settings "resistance-slope"

/-! ## SIM921 output conditioning (`src/hardware/thermometry/PID_Control.txt`)

The document states the SIM921 analog output law `Output = Aout * (Value -
Offset)`, with `Offset` the resistance at the operating temperature and
`Aout` the configured slope. -/

/-- The SIM921 analog output: `Output = Aout * (Value - Offset)` applied to a
resistance reading. -/
def sim921SignalOut (aout offset resistance : ℚ) : ℚ :=
  aout * (resistance - offset)

/-! ## Polarity derivation (`src/hardware/thermometry/PID_Control.txt`)

The document derives the SIM960 polarity by walking the sign of each stage
of the physical transfer chain SIM960 output → high-current board / magnet
current → stage temperature → thermometer resistance → SIM921 conditioned
signal, and applies the SIM960 manual's rule: an inverting composed process
needs negative polarity for negative feedback. -/

/-- Sign of one stage of the physical transfer chain. -/
inductive TransferSign where
  | pos
  | neg
deriving DecidableEq

/-- Sign composition (the sign of a composition of monotone stages). -/
def TransferSign.comp : TransferSign → TransferSign → TransferSign
  | TransferSign.pos, s => s
  | TransferSign.neg, TransferSign.pos => TransferSign.neg
  | TransferSign.neg, TransferSign.neg => TransferSign.pos

/-- Stage 1, from PID_Control.txt: an increase of the SIM960 output voltage
increases the current sourced by the high-current board through the ADR
magnet. -/
def voutToCurrentSign : TransferSign := TransferSign.pos

/-- Stage 2, from PID_Control.txt: an increase of magnet current increases
the device-stage temperature (during ramp and regulation alike). -/
def currentToTempSign : TransferSign := TransferSign.pos

/-- Stage 3, from PID_Control.txt: increasing the stage temperature
decreases the resistance of the device thermometer. -/
def tempToResistanceSign : TransferSign := TransferSign.neg

/-- Stage 4: the SIM921 conditioned signal `Aout * (R - Offset)` moves with
the resistance when the configured slope `Aout` is positive. -/
def resistanceToSignalSign : TransferSign :=
  if 0 < resistanceSlope then TransferSign.pos else TransferSign.neg

/-- Sign of the end-to-end transfer function, SIM960 output voltage to
SIM921 conditioned signal. -/
def endToEndSign : TransferSign :=
  ((voutToCurrentSign.comp currentToTempSign).comp
      tempToResistanceSign).comp resistanceToSignalSign

/-- SIM960 manual rule as quoted in PID_Control.txt: a non-inverting
process needs positive polarity, an inverting process negative polarity. -/
def polarityFor (s : TransferSign) : String :=
  match s with
  | TransferSign.pos => "+"
  | TransferSign.neg => "-"

/-- The polarity configured in `picturec.yml` under `sim960.pid.polarity`. -/
def configuredPolarity : String :=
  strAt (groupAt sim960Settings "pid") "polarity"

/-! ## C8: output voltage limits (`sim960` defaults, and output clamping) -/

/-- The configured `sim960.vout-min-limit`. -/
def voutMinLimit : ℚ := numAt sim960Settings "vout-min-limit"

/-- The configured `sim960.vout-max-limit`. -/
def voutMaxLimit : ℚ := numAt sim960Settings "vout-max-limit"

/-- The configured `sim960.vout-value` default. -/
def voutValueDefault : ℚ := numAt sim960Settings "vout-value"

/-- The configured `sim921.manual-vout` default. -/
def manualVoutDefault : ℚ := numAt sim921Settings "manual-vout"

/-- Modelled from the spec: the SIM960 agent that clamps computed or
manually-set outputs to the `vout_min ≤ vout ≤ vout_max` band is not among
the sources under src/ (only its configuration is); its clamping behaviour
is modelled from the spec sentence "Manual mode bypasses PID entirely and
applies an operator-set voltage directly, subject to vout_min/vout_max
clamping". -/
def clampVout (vmin vmax v : ℚ) : ℚ := max vmin (min vmax v)

/-! ## Heat-switch controller firmware (`src/unnamed/part_000`)

This is the v0.2 heat-switch controller sketch; its `openHeatSwitch`,
`closeHeatSwitch` and the serial-drain part of `loop` are identical in
`src/arduino/magnetArduino_v0.1/magnetArduino_v0.1.ino` (which lacks the
`v`, `h` and `l` branches).  The firmware's side effects are modelled as an
event trace (digital pin writes, delays, serial prints), and the actuator
pin levels as a state folded over that trace.  Note the v0.2 source is
syntactically broken as C++ (the `h` and `l` branches are missing a closing
parenthesis and `checkOpen`/`checkClosed` are declared `void` yet return a
`char`); the evident intended parse is embedded. -/

/-- Digital pin number of the heat-switch open line (D10). -/
def openPin : Nat := 10

/-- Digital pin number of the heat-switch close line (D11). -/
def closePin : Nat := 11

/-- Digital pin number of the open/close check line (D9). -/
def checkPin : Nat := 9

/-- One observable side effect of the firmware. -/
inductive FwEvent where
  | digitalWrite (pin : Nat) (level : Bool)
  | delay (ms : Nat)
  | serialPrint (s : String)
deriving DecidableEq

/-- Levels of the two actuator output pins. -/
structure PinLevels where
  openLevel : Bool
  closeLevel : Bool
deriving DecidableEq

/-- Effect of one event on the actuator pin levels. -/
def applyEvent (p : PinLevels) : FwEvent → PinLevels
  | FwEvent.digitalWrite pin lvl =>
      if pin = openPin then { p with openLevel := lvl }
      else if pin = closePin then { p with closeLevel := lvl }
      else p
  | _ => p

/-- Actuator pin levels after a trace of events. -/
def applyEvents (p : PinLevels) (evs : List FwEvent) : PinLevels :=
  evs.foldl applyEvent p

/-- `openHeatSwitch()`: drive the open pin high, wait 50 ms, drive it low. -/
def openHeatSwitch : List FwEvent :=
  [FwEvent.digitalWrite openPin true, FwEvent.delay 50,
   FwEvent.digitalWrite openPin false]

/-- `closeHeatSwitch()`: drive the close pin high, wait 50 ms, drive it
low. -/
def closeHeatSwitch : List FwEvent :=
  [FwEvent.digitalWrite closePin true, FwEvent.delay 50,
   FwEvent.digitalWrite closePin false]

/-- `checkClosed()` as written in v0.2: the `digitalRead(checkPin)` branch is
commented out and the function returns the constant `'l'`, ignoring the
check pin level passed here as its argument. -/
def checkClosed (_checkLevel : Bool) : Char := 'l'

/-- `checkOpen()` as written in v0.2: the `digitalRead(checkPin)` branch is
commented out and the function returns the constant `'h'`, ignoring the
check pin level. -/
def checkOpen (_checkLevel : Bool) : Char := 'h'

/-- The serial-drain loop `while (Serial.available()) confirm = Serial.read()`:
`confirm` ends as the last byte of the burst (`c0` stands for the
uninitialised `char confirm`, never used when the burst is nonempty). -/
def drainSerial (burst : List Char) (c0 : Char) : Char :=
  burst.foldl (fun _ x => x) c0

/-- Dispatch on the drained command byte: the if/else-if chain of `loop()`.
`analog5` is the value `analogRead(5)` would return and `checkLevel` the
level of the check pin. -/
def dispatch (analog5 : Nat) (checkLevel : Bool) (confirm : Char) :
    List FwEvent :=
  if confirm = '?' then
    [FwEvent.serialPrint " ", FwEvent.serialPrint (toString analog5)]
  else if confirm = 'o' then openHeatSwitch
  else if confirm = 'c' then closeHeatSwitch
  else if confirm = 'v' then
    [FwEvent.serialPrint " ", FwEvent.serialPrint "0.2"]
  else if confirm = 'h' then
    [FwEvent.serialPrint " ",
     FwEvent.serialPrint (String.mk [checkOpen checkLevel])]
  else if confirm = 'l' then
    [FwEvent.serialPrint " ",
     FwEvent.serialPrint (String.mk [checkClosed checkLevel])]
  else []

/-- The unconditional echo at the end of `loop()`:
`Serial.print(" "); Serial.print(confirm); Serial.println()`. -/
def echoEvents (confirm : Char) : List FwEvent :=
  [FwEvent.serialPrint " ", FwEvent.serialPrint (String.mk [confirm]),
   FwEvent.serialPrint "\n"]

/-- One iteration of `loop()`: if bytes are available, drain them all,
dispatch on the last one and echo it; otherwise do nothing. -/
def loopBody (analog5 : Nat) (checkLevel : Bool) (burst : List Char) :
    List FwEvent :=
  if burst.isEmpty then []
  else
    let confirm := drainSerial burst 'A'
    dispatch analog5 checkLevel confirm ++ echoEvents confirm

/-- Level extracted from a write event to the given pin. -/
def writeLevelTo (pin : Nat) : FwEvent → Option Bool
  | FwEvent.digitalWrite p lvl => if p = pin then some lvl else none
  | _ => none

/-- The settings (pin) state after one delivery of a command byte. -/
def applyCommand (analog5 : Nat) (chk : Bool) (confirm : Char)
    (p : PinLevels) : PinLevels :=
  applyEvents p (loopBody analog5 chk [confirm])

/-! ## Cooldown / heat-switch state machine guard -/

/-- Modelled from the spec: the orthogonal heat-switch state of the
cooldown state machine (spec section 4.4); the state machine itself is not
among the sources under src/ (only its configuration defaults and the
heat-switch firmware are). -/
inductive HeatSwitchState where
  | OPEN
  | CLOSED
  | TRANSITIONING
deriving DecidableEq

/-- Modelled from the spec: the coarse cooldown phase. -/
inductive CooldownPhase where
  | COLD
  | WARM
  | RAMPING
  | REGULATING
  | ABORTING
deriving DecidableEq

/-- Modelled from the spec: the state the cooldown state machine acts on --
the heat-switch state, the cooldown phase and the magnet current setting. -/
structure FridgeState where
  heatSwitch : HeatSwitchState
  phase : CooldownPhase
  magnetCurrentSetting : ℚ
deriving DecidableEq

/-- Modelled from the spec: the command error taxonomy of spec section 7. -/
inductive CommandError where
  | SchemaError
  | PreconditionError
  | StaleStatusError
  | DeviceIOError
  | TransitionConflictError
deriving DecidableEq

/-- Modelled from the spec: applying a magnet ramp command.  The spec's
invariant "the magnet may only be commanded to ramp while
HeatSwitchState = CLOSED" and its tie-break policy "a ramp command issued
while heat switch is not CLOSED is rejected with a PreconditionError"
make the guard a precondition check: only when the heat switch is CLOSED
does the command take effect; otherwise the state is returned untouched
together with the error. -/
def rampMagnet (s : FridgeState) (target : ℚ) :
    FridgeState × Option CommandError :=
  if s.heatSwitch = HeatSwitchState.CLOSED then
    ({ s with phase := CooldownPhase.RAMPING,
              magnetCurrentSetting := target }, none)
  else
    (s, some CommandError.PreconditionError)

/-! ## Framed serial receiver
(`src/arduino/readHemtBiases_v0.2/readHemtBiases_v0.2.ino`)

The `receive()` function reads serial bytes into the 64-byte
`receivedChars` buffer: bytes are ignored until a `<` start marker arrives;
payload bytes are then stored at the running index `ndx`, which is clamped
to `numChars - 1` so an overlong payload keeps overwriting the last cell;
a `>` end marker null-terminates the buffer, resets the index and flags
`newData`, after which `reply()` echoes the payload and clears the flag.
The loop of `receive()` and `reply()` is modelled as a step function per
byte, emitting the completed payload (the buffer up to the terminator) at
each end marker. -/

/-- Size of the `receivedChars` buffer (`const byte numChars = 64`). -/
def numChars : Nat := 64

/-- The receiver's persistent state: the `recvInProgress` and `ndx` statics
of `receive()` and the `receivedChars` buffer. -/
structure RecvState where
  recvInProgress : Bool
  ndx : Nat
  receivedChars : List Char

/-- The state at boot: not in a frame, index 0, zero-initialised buffer. -/
def initRecvState : RecvState :=
  { recvInProgress := false, ndx := 0,
    receivedChars := List.replicate numChars (Char.ofNat 0) }

/-- One byte of `receive()`: inside a frame a non-`>` byte is stored at
`ndx` and the index advances with the `ndx >= numChars` clamp to
`numChars - 1`; a `>` byte null-terminates the buffer, resets the state
and emits the payload (the buffer up to the terminator); outside a frame
only `<` changes anything, by entering a frame. -/
def recvStep (st : RecvState) (rc : Char) :
    RecvState × Option (List Char) :=
  if st.recvInProgress then
    if rc ≠ '>' then
      ({ recvInProgress := true,
         ndx := if numChars ≤ st.ndx + 1 then numChars - 1 else st.ndx + 1,
         receivedChars := st.receivedChars.set st.ndx rc }, none)
    else
      ({ recvInProgress := false, ndx := 0,
         receivedChars := st.receivedChars.set st.ndx (Char.ofNat 0) },
       some ((st.receivedChars.set st.ndx (Char.ofNat 0)).take st.ndx))
  else if rc = '<' then
    ({ st with recvInProgress := true }, none)
  else (st, none)

/-- The `receive()`/`reply()` loop over a whole byte stream: the final
receiver state and the sequence of emitted payloads. -/
def runReceive (st : RecvState) : List Char → RecvState × List (List Char)
  | [] => (st, [])
  | rc :: rest =>
    ((runReceive (recvStep st rc).1 rest).1,
     (recvStep st rc).2.toList ++ (runReceive (recvStep st rc).1 rest).2)

/-- A complete frame around a payload. -/
def frameOf (p : List Char) : List Char := '<' :: p ++ ['>']

/-- The receiver is between frames: no frame in progress, index reset. -/
def readyState (st : RecvState) : Prop :=
  st.recvInProgress = false ∧ st.ndx = 0

/-- The write index is inside the buffer and the buffer has its allocated
size. -/
def bufferOk (st : RecvState) : Prop :=
  st.ndx < numChars ∧ st.receivedChars.length = numChars

/-- The buffer after storing the payload bytes `p` at consecutive indices
starting at `n`. -/
def writeFrom (b : List Char) (n : Nat) : List Char → List Char
  | [] => b
  | c :: cs => writeFrom (b.set n c) (n + 1) cs

/-- The buffer once the clamp has pinned the index to the last cell: each
further payload byte overwrites that cell. -/
def overwriteLast (b : List Char) : List Char → List Char
  | [] => b
  | c :: cs => overwriteLast (b.set (numChars - 1) c) cs

/-! ## Theorems -/

theorem resistanceOffset_eq : resistanceOffset = 38801 / 2 := rfl

theorem resistanceSlope_eq : resistanceSlope = 1 / 100000 := rfl

theorem resistanceSlope_pos : 0 < resistanceSlope := by
  rw [resistanceSlope_eq]; norm_num

/-- C1: the composed transfer function is net-inverting, so the derived
polarity is negative, and the configured polarity agrees with the derived
one.  The fourth stage sign is grounded in the actual conditioning
function: with the configured slope, `sim921SignalOut` is strictly
increasing in the resistance. -/
theorem polarity_derivation (r1 r2 : ℚ) (h : r1 < r2) :
    endToEndSign = TransferSign.neg ∧
    polarityFor endToEndSign = "-" ∧
    configuredPolarity = polarityFor endToEndSign ∧
    sim921SignalOut resistanceSlope resistanceOffset r1 <
      sim921SignalOut resistanceSlope resistanceOffset r2 := by
  have hsign : endToEndSign = TransferSign.neg := by
    rw [endToEndSign, resistanceToSignalSign, if_pos resistanceSlope_pos]
    rfl
  refine ⟨hsign, by rw [hsign]; rfl, by rw [hsign]; rfl, ?_⟩
  rw [sim921SignalOut, sim921SignalOut]
  have hs := resistanceSlope_pos
  nlinarith

/-- Witness for `polarity_derivation` at the concrete resistances 1000 and
65000 ohms. -/
theorem polarity_derivation_witness :
    configuredPolarity = "-" ∧
    sim921SignalOut resistanceSlope resistanceOffset 1000 <
      sim921SignalOut resistanceSlope resistanceOffset 65000 := by
  have h := polarity_derivation 1000 65000 (by norm_num)
  exact ⟨h.2.2.1.trans h.2.1, h.2.2.2⟩

/-! ## C2: conditioned signal values and the output band -/

/-- C2: with the configured offset and slope the SIM921 output is 0 at the
operating resistance 19400.5 ohms, about -0.184 V at 1000 ohms, about
0.456 V at 65000 ohms, and over the whole expected excursion
1000..65000 ohms it stays inside the plus-or-minus 1 V band. -/
theorem sim921_conditioning (r : ℚ) (h1 : 1000 ≤ r) (h2 : r ≤ 65000) :
    sim921SignalOut resistanceSlope resistanceOffset resistanceOffset = 0 ∧
    sim921SignalOut resistanceSlope resistanceOffset 1000 = -(184005 / 1000000) ∧
    |sim921SignalOut resistanceSlope resistanceOffset 1000 - -(184 / 1000)| <
      1 / 1000 ∧
    sim921SignalOut resistanceSlope resistanceOffset 65000 = 455995 / 1000000 ∧
    |sim921SignalOut resistanceSlope resistanceOffset 65000 - 456 / 1000| <
      1 / 1000 ∧
    -1 ≤ sim921SignalOut resistanceSlope resistanceOffset r ∧
    sim921SignalOut resistanceSlope resistanceOffset r ≤ 1 := by
  rw [sim921SignalOut, sim921SignalOut, sim921SignalOut, sim921SignalOut,
    resistanceSlope_eq, resistanceOffset_eq]
  refine ⟨by ring, by norm_num, by rw [abs_lt]; constructor <;> norm_num,
    by norm_num, by rw [abs_lt]; constructor <;> norm_num, ?_, ?_⟩ <;>
    nlinarith

/-- Witness for `sim921_conditioning` at the resistance 19400.5 ohms. -/
theorem sim921_conditioning_witness :
    sim921SignalOut resistanceSlope resistanceOffset resistanceOffset = 0 ∧
    -1 ≤ sim921SignalOut resistanceSlope resistanceOffset (38801 / 2) ∧
    sim921SignalOut resistanceSlope resistanceOffset (38801 / 2) ≤ 1 := by
  have h := sim921_conditioning (38801 / 2) (by norm_num) (by norm_num)
  exact ⟨h.1, h.2.2.2.2.2.1, h.2.2.2.2.2.2⟩

/-! ## C9: shape of the configuration defaults document -/

/-- C9 counterexample: the `sim960` defaults group also contains the key
`pid-control-vin-setpoint`, which the claimed exhaustive key list omits. -/
theorem sim960_keys_counterexample :
    "pid-control-vin-setpoint" ∈ groupKeys sim960Settings ∧
    "pid-control-vin-setpoint" ∉
      ["mode", "vout-min-limit", "vout-max-limit", "pid", "setpoint-mode",
       "ramp-rate", "ramp-enable", "vout-value"] := by
  constructor
  · rw [show groupKeys sim960Settings =
      ["mode", "vout-min-limit", "vout-max-limit", "pid", "setpoint-mode",
       "pid-control-vin-setpoint", "ramp-rate", "ramp-enable", "vout-value"]
      from rfl]
    decide
  · decide

/-- C9 amended: the defaults document is a nested mapping whose top-level
device groups are exactly hemtduino, currentduino, ls240, sim921 and
sim960, and the sim960 group contains exactly mode, vout-min-limit,
vout-max-limit, pid (with polarity, mode, p, i, d), setpoint-mode,
pid-control-vin-setpoint, ramp-rate, ramp-enable and vout-value. -/
theorem configuration_schema_shape :
    groupKeys deviceSettingsDefaults =
      ["hemtduino", "currentduino", "ls240", "sim921", "sim960"] ∧
    groupKeys (groupAt deviceSettingsDefaults "hemtduino") =
      ["hemts-enabled"] ∧
    groupKeys (groupAt deviceSettingsDefaults "currentduino") =
      ["highcurrentboard", "heatswitch"] ∧
    groupKeys (groupAt deviceSettingsDefaults "ls240") =
      ["lhe-profile", "ln2-profile"] ∧
    groupKeys sim960Settings =
      ["mode", "vout-min-limit", "vout-max-limit", "pid", "setpoint-mode",
       "pid-control-vin-setpoint", "ramp-rate", "ramp-enable", "vout-value"] ∧
    groupKeys (groupAt sim960Settings "pid") =
      ["polarity", "mode", "p", "i", "d"] :=
  ⟨rfl, rfl, rfl, rfl, rfl, rfl⟩

theorem voutMinLimit_eq : voutMinLimit = -(1 / 10) := rfl

theorem voutMaxLimit_eq : voutMaxLimit = 10 := rfl

/-- C8: any output clamped to the configured limits lies in the band, and
the configured defaults themselves satisfy the invariant:
vout-min-limit = -0.1 ≤ vout-value = 0 ≤ vout-max-limit = 10, and the
manual-vout default 0 also lies in the band. -/
theorem vout_band_invariant (v : ℚ) :
    voutMinLimit ≤ clampVout voutMinLimit voutMaxLimit v ∧
    clampVout voutMinLimit voutMaxLimit v ≤ voutMaxLimit ∧
    voutMinLimit ≤ voutValueDefault ∧ voutValueDefault ≤ voutMaxLimit ∧
    voutMinLimit ≤ manualVoutDefault ∧ manualVoutDefault ≤ voutMaxLimit := by
  have hmm : voutMinLimit ≤ voutMaxLimit := by
    rw [voutMinLimit_eq, voutMaxLimit_eq]; norm_num
  refine ⟨le_max_left _ _, max_le hmm (min_le_left _ _), ?_, ?_, ?_, ?_⟩ <;>
    simp only [show voutValueDefault = 0 from rfl,
      show manualVoutDefault = 0 from rfl, voutMinLimit_eq, voutMaxLimit_eq] <;>
    norm_num

theorem drainSerial_cons (x : Char) (xs : List Char) (c0 : Char) :
    drainSerial (x :: xs) c0 = drainSerial xs x := rfl

theorem drainSerial_eq_getLast (burst : List Char) (h : burst ≠ [])
    (c0 : Char) : drainSerial burst c0 = burst.getLast h := by
  induction burst generalizing c0 with
  | nil => exact absurd rfl h
  | cons x xs ih =>
    cases xs with
    | nil => rfl
    | cons y ys =>
      rw [drainSerial_cons, ih (by simp)]
      simp [List.getLast]

/-- C4: a received `'o'` (resp. `'c'`) command pulses exactly the open
(resp. close) actuator line: the trace writes that pin high, delays 50 ms,
then writes it low, touches the other actuator pin not at all, and when
both pins start low they are both low again after the command. -/
theorem heatswitch_pulse (analog5 : Nat) (chk : Bool) (p : PinLevels)
    (h : p.openLevel = false ∧ p.closeLevel = false) :
    (loopBody analog5 chk ['o']).filterMap (writeLevelTo openPin) =
      [true, false] ∧
    (loopBody analog5 chk ['o']).filterMap (writeLevelTo closePin) = [] ∧
    FwEvent.delay 50 ∈ loopBody analog5 chk ['o'] ∧
    applyEvents p (loopBody analog5 chk ['o']) =
      { openLevel := false, closeLevel := false } ∧
    (loopBody analog5 chk ['c']).filterMap (writeLevelTo closePin) =
      [true, false] ∧
    (loopBody analog5 chk ['c']).filterMap (writeLevelTo openPin) = [] ∧
    FwEvent.delay 50 ∈ loopBody analog5 chk ['c'] ∧
    applyEvents p (loopBody analog5 chk ['c']) =
      { openLevel := false, closeLevel := false } := by
  obtain ⟨ho, hc⟩ := h
  refine ⟨?_, ?_, ?_, ?_, ?_, ?_, ?_, ?_⟩ <;>
    simp [loopBody, drainSerial, dispatch, echoEvents, openHeatSwitch,
      closeHeatSwitch, applyEvents, applyEvent, writeLevelTo, openPin,
      closePin, List.filterMap, ho, hc]

/-- Witness for `heatswitch_pulse` with both pins initially low. -/
theorem heatswitch_pulse_witness :
    applyEvents { openLevel := false, closeLevel := false }
        (loopBody 0 false ['o']) =
      { openLevel := false, closeLevel := false } ∧
    (loopBody 0 false ['c']).filterMap (writeLevelTo closePin) =
      [true, false] := by
  have h := heatswitch_pulse 0 false
    { openLevel := false, closeLevel := false } ⟨rfl, rfl⟩
  exact ⟨h.2.2.2.1, h.2.2.2.2.1⟩

/-- C5 (code evaluation at the failing input): the v0.2 firmware's open and
closed confirmation replies are fixed constants, independent of the check
pin level, so the `'h'` and `'l'` commands produce identical event traces
whether the check pin reads low or high. -/
theorem check_reply_ignores_check_pin :
    checkOpen false = 'h' ∧ checkOpen true = 'h' ∧
    checkClosed false = 'l' ∧ checkClosed true = 'l' ∧
    dispatch 0 false 'h' = dispatch 0 true 'h' ∧
    dispatch 0 false 'l' = dispatch 0 true 'l' :=
  ⟨rfl, rfl, rfl, rfl, rfl, rfl⟩

/-- C7: delivering the same command byte twice in succession leaves the
device in the same settings state as delivering it once; in particular a
second `'o'` pulse ends with both actuator pins exactly as the first one
left them. -/
theorem command_idempotent (analog5 : Nat) (chk : Bool) (confirm : Char)
    (p : PinLevels) :
    applyCommand analog5 chk confirm (applyCommand analog5 chk confirm p) =
      applyCommand analog5 chk confirm p := by
  unfold applyCommand loopBody
  simp only [drainSerial_cons]
  unfold dispatch
  split_ifs <;>
    simp [applyEvents, applyEvent, echoEvents, openHeatSwitch,
      closeHeatSwitch, drainSerial, openPin, closePin]

/-- C10: when several bytes are available in one loop iteration, the drain
loop keeps only the last byte, so the whole iteration behaves exactly as
if only the last byte had arrived: earlier bytes cause no actuation and no
response. -/
theorem burst_executes_last (analog5 : Nat) (chk : Bool)
    (burst : List Char) (h : burst ≠ []) :
    loopBody analog5 chk burst = loopBody analog5 chk [burst.getLast h] := by
  rw [loopBody, loopBody]
  rw [if_neg (by simpa using h), if_neg (by simp)]
  rw [drainSerial_eq_getLast burst h]
  rfl

/-- Witness for `burst_executes_last` on the burst `['o', 'c']`. -/
theorem burst_executes_last_witness :
    loopBody 0 false ['o', 'c'] = loopBody 0 false ['c'] := by
  have h := burst_executes_last 0 false ['o', 'c'] (by simp)
  simpa [List.getLast] using h

/-- C3: from every state whose heat switch is not CLOSED, a ramp command
yields a PreconditionError and returns the state unchanged -- in
particular the magnet current setting is not mutated. -/
theorem ramp_rejected_unless_closed (s : FridgeState) (target : ℚ)
    (h : s.heatSwitch ≠ HeatSwitchState.CLOSED) :
    rampMagnet s target = (s, some CommandError.PreconditionError) ∧
    (rampMagnet s target).1.magnetCurrentSetting =
      s.magnetCurrentSetting := by
  rw [rampMagnet, if_neg h]
  exact ⟨rfl, rfl⟩

/-- Witness for `ramp_rejected_unless_closed`: a ramp to 1 A issued while
the heat switch is OPEN in phase WARM with the magnet at 0. -/
theorem ramp_rejected_unless_closed_witness :
    rampMagnet
        { heatSwitch := HeatSwitchState.OPEN, phase := CooldownPhase.WARM,
          magnetCurrentSetting := 0 } 1 =
      ({ heatSwitch := HeatSwitchState.OPEN, phase := CooldownPhase.WARM,
         magnetCurrentSetting := 0 },
       some CommandError.PreconditionError) :=
  (ramp_rejected_unless_closed
    { heatSwitch := HeatSwitchState.OPEN, phase := CooldownPhase.WARM,
      magnetCurrentSetting := 0 } 1 (fun hc => HeatSwitchState.noConfusion hc)).1

theorem runReceive_nil (st : RecvState) : runReceive st [] = (st, []) := rfl

theorem runReceive_cons (st : RecvState) (rc : Char) (rest : List Char) :
    runReceive st (rc :: rest) =
      ((runReceive (recvStep st rc).1 rest).1,
       (recvStep st rc).2.toList ++ (runReceive (recvStep st rc).1 rest).2) :=
  rfl

theorem runReceive_append (a b : List Char) (st : RecvState) :
    runReceive st (a ++ b) =
      ((runReceive (runReceive st a).1 b).1,
       (runReceive st a).2 ++ (runReceive (runReceive st a).1 b).2) := by
  induction a generalizing st with
  | nil => simp [runReceive_nil]
  | cons x xs ih =>
    simp only [List.cons_append, runReceive_cons]
    rw [ih]
    simp [List.append_assoc]

theorem initRecvState_bufferOk : bufferOk initRecvState := by
  constructor
  · decide
  · simp [initRecvState]

theorem recvStep_bufferOk (st : RecvState) (rc : Char) (h : bufferOk st) :
    bufferOk (recvStep st rc).1 := by
  obtain ⟨hn, hl⟩ := h
  have h64 : numChars = 64 := rfl
  rw [recvStep]
  split_ifs <;> exact ⟨by dsimp only; omega, by simp [hl]⟩

theorem runReceive_bufferOk (bytes : List Char) (st : RecvState)
    (h : bufferOk st) : bufferOk (runReceive st bytes).1 := by
  induction bytes generalizing st with
  | nil => exact h
  | cons x xs ih =>
    rw [runReceive_cons]
    exact ih _ (recvStep_bufferOk st x h)

theorem recvStep_idle (st : RecvState) (rc : Char)
    (h1 : st.recvInProgress = false) (h2 : rc ≠ '<') :
    recvStep st rc = (st, none) := by
  rw [recvStep, if_neg (by simp [h1]), if_neg h2]

theorem runReceive_idle (bytes : List Char) (st : RecvState)
    (h1 : st.recvInProgress = false) (h2 : ∀ c ∈ bytes, c ≠ '<') :
    runReceive st bytes = (st, []) := by
  induction bytes with
  | nil => rfl
  | cons x xs ih =>
    rw [runReceive_cons, recvStep_idle st x h1 (h2 x (by simp))]
    rw [ih (fun c hc => h2 c (by simp [hc]))]
    rfl

theorem take_set_le (b : List Char) (m n : Nat) (c : Char) (h : m ≤ n) :
    (b.set n c).take m = b.take m := by
  induction b generalizing m n with
  | nil => simp
  | cons x xs ih =>
    cases n with
    | zero =>
      have hm : m = 0 := Nat.le_zero.mp h
      simp [hm]
    | succ k =>
      cases m with
      | zero => simp
      | succ j =>
        simp only [List.set_cons_succ, List.take_succ_cons]
        rw [ih j k (Nat.succ_le_succ_iff.mp h)]

theorem take_set_succ (b : List Char) (n : Nat) (c : Char)
    (h : n < b.length) :
    (b.set n c).take (n + 1) = b.take n ++ [c] := by
  induction b generalizing n with
  | nil => simp at h
  | cons x xs ih =>
    cases n with
    | zero => simp
    | succ k =>
      simp only [List.set_cons_succ, List.take_succ_cons]
      rw [ih k (by simpa using h)]
      simp

theorem writeFrom_length (p b : List Char) (n : Nat) :
    (writeFrom b n p).length = b.length := by
  induction p generalizing b n with
  | nil => rfl
  | cons c cs ih =>
    rw [writeFrom, ih]
    simp

theorem take_writeFrom (p b : List Char) (n : Nat)
    (h : n + p.length ≤ b.length) :
    (writeFrom b n p).take (n + p.length) = b.take n ++ p := by
  induction p generalizing b n with
  | nil => simp [writeFrom]
  | cons c cs ih =>
    rw [writeFrom]
    have h1 : n < b.length := by simp only [List.length_cons] at h; omega
    have h2 : (n + 1) + cs.length ≤ (b.set n c).length := by
      simp only [List.length_set, List.length_cons] at h ⊢; omega
    have harith : n + (c :: cs).length = (n + 1) + cs.length := by
      simp only [List.length_cons]; omega
    rw [harith, ih (b.set n c) (n + 1) h2, take_set_succ b n c h1]
    simp

theorem runReceive_fill (p : List Char) (st : RecvState)
    (hip : st.recvInProgress = true) (hp : '>' ∉ p)
    (hn : st.ndx + p.length < numChars) :
    runReceive st p =
      ({ recvInProgress := true, ndx := st.ndx + p.length,
         receivedChars := writeFrom st.receivedChars st.ndx p }, []) := by
  induction p generalizing st with
  | nil =>
    obtain ⟨ip, n, buf⟩ := st
    simp_all [runReceive_nil, writeFrom]
  | cons c cs ih =>
    rw [runReceive_cons]
    have hc : ¬c = '>' := fun hh => hp (hh ▸ List.mem_cons_self c cs)
    have h64 : numChars = 64 := rfl
    have hclamp : ¬numChars ≤ st.ndx + 1 := by
      simp only [List.length_cons] at hn; omega
    have hstep : recvStep st c =
        ({ recvInProgress := true, ndx := st.ndx + 1,
           receivedChars := st.receivedChars.set st.ndx c }, none) := by
      simp [recvStep, hip, hc, hclamp]
    rw [hstep]
    have hcs : '>' ∉ cs := fun hh => hp (List.mem_cons_of_mem c hh)
    have hn2 : (st.ndx + 1) + cs.length < numChars := by
      simp only [List.length_cons] at hn; omega
    rw [ih { recvInProgress := true, ndx := st.ndx + 1,
             receivedChars := st.receivedChars.set st.ndx c } rfl hcs hn2]
    have harith : st.ndx + 1 + cs.length = st.ndx + (c :: cs).length := by
      simp only [List.length_cons]; omega
    simp [writeFrom, harith]

theorem recvStep_term (st : RecvState) (hip : st.recvInProgress = true) :
    recvStep st '>' =
      ({ recvInProgress := false, ndx := 0,
         receivedChars := st.receivedChars.set st.ndx (Char.ofNat 0) },
       some ((st.receivedChars.set st.ndx (Char.ofNat 0)).take st.ndx)) := by
  simp [recvStep, hip]

/-- A completed well-formed frame, arriving when the receiver is between
frames, is parsed to exactly its payload, and the receiver is between
frames again afterwards. -/
theorem runReceive_frame (p : List Char) (st : RecvState)
    (hready : readyState st) (hbuf : bufferOk st)
    (hp : '>' ∉ p) (hlen : p.length < numChars) :
    (runReceive st (frameOf p)).2 = [p] ∧
    readyState (runReceive st (frameOf p)).1 := by
  obtain ⟨ip, n, buf⟩ := st
  obtain ⟨hip, hndx⟩ := hready
  obtain ⟨hnd, hlenb⟩ := hbuf
  simp only at hip hndx hnd hlenb
  subst hip hndx
  have hstart : recvStep ⟨false, 0, buf⟩ '<' =
      ({ recvInProgress := true, ndx := 0, receivedChars := buf }, none) := by
    simp [recvStep]
  have h64 : numChars = 64 := rfl
  have hfirst : runReceive ⟨false, 0, buf⟩ ('<' :: p) =
      ({ recvInProgress := true, ndx := p.length,
         receivedChars := writeFrom buf 0 p }, []) := by
    rw [runReceive_cons, hstart]
    dsimp only
    rw [runReceive_fill p ⟨true, 0, buf⟩ rfl hp (by dsimp only; omega)]
    dsimp only
    simp [Nat.zero_add]
  have hsec : runReceive ⟨true, p.length, writeFrom buf 0 p⟩ ['>'] =
      ({ recvInProgress := false, ndx := 0,
         receivedChars := (writeFrom buf 0 p).set p.length (Char.ofNat 0) },
       [((writeFrom buf 0 p).set p.length (Char.ofNat 0)).take p.length]) := by
    rw [runReceive_cons, recvStep_term _ rfl, runReceive_nil]
    dsimp only
    simp
  rw [frameOf, runReceive_append, hfirst]
  dsimp only
  rw [hsec]
  dsimp only
  refine ⟨?_, ⟨rfl, rfl⟩⟩
  simp only [List.nil_append]
  rw [take_set_le _ _ _ _ (le_refl p.length)]
  have := take_writeFrom p buf 0 (by omega)
  simpa using this

theorem recvStep_msg_length (st : RecvState) (rc : Char) (h : bufferOk st)
    (m : List Char) (hm : (recvStep st rc).2 = some m) :
    m.length < numChars := by
  obtain ⟨hn, hl⟩ := h
  have h64 : numChars = 64 := rfl
  rw [recvStep] at hm
  split_ifs at hm
  dsimp only at hm
  first
      | contradiction
      | (have hmm : (st.receivedChars.set st.ndx (Char.ofNat 0)).take st.ndx
             = m := Option.some.inj hm
         rw [← hmm]
         simp only [List.length_take, List.length_set, hl]
         omega)

theorem runReceive_msg_length (bytes : List Char) (st : RecvState)
    (h : bufferOk st) :
    ∀ m ∈ (runReceive st bytes).2, m.length < numChars := by
  induction bytes generalizing st with
  | nil =>
    intro m hm
    simp [runReceive_nil] at hm
  | cons c cs ih =>
    intro m hm
    rw [runReceive_cons] at hm
    dsimp only at hm
    rw [List.mem_append] at hm
    rcases hm with hm | hm
    · rcases ho : (recvStep st c).2 with _ | msg
      · rw [ho] at hm
        simp at hm
      · rw [ho] at hm
        simp at hm
        exact recvStep_msg_length st c h m (by rw [ho, hm])
    · exact ih _ (recvStep_bufferOk st c h) m hm

theorem take_overwriteLast (r b : List Char) :
    (overwriteLast b r).take (numChars - 1) = b.take (numChars - 1) := by
  induction r generalizing b with
  | nil => rfl
  | cons c cs ih =>
    rw [overwriteLast, ih, take_set_le _ _ _ _ (le_refl _)]

theorem runReceive_overflowFill (r : List Char) (st : RecvState)
    (hip : st.recvInProgress = true) (hndx : st.ndx = numChars - 1)
    (hr : '>' ∉ r) :
    runReceive st r =
      ({ recvInProgress := true, ndx := numChars - 1,
         receivedChars := overwriteLast st.receivedChars r }, []) := by
  induction r generalizing st with
  | nil =>
    obtain ⟨ip, n, buf⟩ := st
    simp_all [runReceive_nil, overwriteLast]
  | cons c cs ih =>
    rw [runReceive_cons]
    have hc : ¬c = '>' := fun hh => hr (hh ▸ List.mem_cons_self c cs)
    have hclamp : numChars ≤ st.ndx + 1 := by rw [hndx]; decide
    have hstep : recvStep st c =
        ({ recvInProgress := true, ndx := numChars - 1,
           receivedChars := st.receivedChars.set st.ndx c }, none) := by
      simp [recvStep, hip, hc, hclamp]
    rw [hstep]
    dsimp only
    rw [ih ⟨true, numChars - 1, st.receivedChars.set st.ndx c⟩ rfl rfl
        (fun hh => hr (List.mem_cons_of_mem c hh))]
    rw [hndx]
    rfl

/-- An overlong frame is truncated in place: from a ready state, a frame
whose payload has at least `numChars` bytes emits exactly the payload's
first `numChars - 1` bytes, and the receiver is ready again afterwards. -/
theorem runReceive_overlong (q : List Char) (st : RecvState)
    (hready : readyState st) (hbuf : bufferOk st)
    (hq : '>' ∉ q) (hlen : numChars ≤ q.length) :
    (runReceive st (frameOf q)).2 = [q.take (numChars - 1)] ∧
    readyState (runReceive st (frameOf q)).1 := by
  obtain ⟨ip, n, buf⟩ := st
  obtain ⟨hip, hndx⟩ := hready
  obtain ⟨hnd, hlenb⟩ := hbuf
  simp only at hip hndx hnd hlenb
  subst hip hndx
  have h64 : numChars = 64 := rfl
  have hsplit : q = q.take (numChars - 1) ++ q.drop (numChars - 1) :=
    (List.take_append_drop _ q).symm
  have hlt : (q.take (numChars - 1)).length = numChars - 1 := by
    rw [List.length_take]
    omega
  have htm : '>' ∉ q.take (numChars - 1) :=
    fun hh => hq (List.take_subset _ _ hh)
  have hdm : '>' ∉ q.drop (numChars - 1) :=
    fun hh => hq (List.drop_subset _ _ hh)
  have hstart : recvStep ⟨false, 0, buf⟩ '<' =
      ({ recvInProgress := true, ndx := 0, receivedChars := buf }, none) := by
    simp [recvStep]
  have hfirst : runReceive ⟨false, 0, buf⟩ ('<' :: q) =
      ({ recvInProgress := true, ndx := numChars - 1,
         receivedChars :=
           overwriteLast (writeFrom buf 0 (q.take (numChars - 1)))
             (q.drop (numChars - 1)) }, []) := by
    rw [runReceive_cons, hstart]
    dsimp only
    conv_lhs => rw [hsplit]
    rw [runReceive_append]
    rw [runReceive_fill (q.take (numChars - 1)) ⟨true, 0, buf⟩ rfl htm
        (by dsimp only; omega)]
    dsimp only
    rw [runReceive_overflowFill (q.drop (numChars - 1))
        ⟨true, 0 + (q.take (numChars - 1)).length,
         writeFrom buf 0 (q.take (numChars - 1))⟩
        rfl (by dsimp only; omega) hdm]
    simp
  have hsec := recvStep_term
    ⟨true, numChars - 1,
     overwriteLast (writeFrom buf 0 (q.take (numChars - 1)))
       (q.drop (numChars - 1))⟩ rfl
  rw [frameOf, runReceive_append, hfirst]
  dsimp only
  rw [runReceive_cons, hsec, runReceive_nil]
  dsimp only
  refine ⟨?_, ⟨rfl, rfl⟩⟩
  simp only [Option.toList, List.nil_append, List.append_nil]
  rw [take_set_le _ _ _ _ (le_refl _), take_overwriteLast]
  have hw := take_writeFrom (q.take (numChars - 1)) buf 0 (by omega)
  rw [hlt] at hw
  simpa using hw

/-- C6 amended: for the framed receiver started at boot, (1) a byte
sequence containing no start marker, arriving while the receiver is
between frames, is discarded without changing the receiver; (2) the write
index always stays inside the 64-byte buffer and every emitted payload
fits in it; (3) after any prefix that leaves the receiver between frames
-- in particular after any terminated frame, since every end marker
resets the receiver -- a well-formed frame parses to exactly its payload
and leaves the receiver between frames again; and (4) an overlong frame
is truncated in place, emitting exactly the payload's first
`numChars - 1` bytes.  (After an unterminated frame the receiver is not
between frames and the next frame is absorbed into the pending payload:
see the counterexample theorem.) -/
theorem framed_receiver (pre rest payload : List Char)
    (hready : readyState (runReceive initRecvState pre).1)
    (hrest : ∀ c ∈ rest, c ≠ '<')
    (hpay : '>' ∉ payload) (hplen : payload.length < numChars) :
    runReceive (runReceive initRecvState pre).1 rest =
      ((runReceive initRecvState pre).1, []) ∧
    bufferOk (runReceive initRecvState pre).1 ∧
    (∀ m ∈ (runReceive initRecvState pre).2, m.length < numChars) ∧
    (runReceive initRecvState (pre ++ frameOf payload)).2 =
      (runReceive initRecvState pre).2 ++ [payload] ∧
    readyState (runReceive initRecvState (pre ++ frameOf payload)).1 ∧
    (∀ q : List Char, '>' ∉ q → numChars ≤ q.length →
      (runReceive initRecvState (pre ++ frameOf q)).2 =
        (runReceive initRecvState pre).2 ++ [q.take (numChars - 1)]) := by
  have hbuf : bufferOk (runReceive initRecvState pre).1 :=
    runReceive_bufferOk pre initRecvState initRecvState_bufferOk
  refine ⟨runReceive_idle rest _ hready.1 hrest, hbuf,
    runReceive_msg_length pre initRecvState initRecvState_bufferOk,
    ?_, ?_, ?_⟩
  · rw [runReceive_append]
    dsimp only
    rw [(runReceive_frame payload _ hready hbuf hpay hplen).1]
  · rw [runReceive_append]
    dsimp only
    exact (runReceive_frame payload _ hready hbuf hpay hplen).2
  · intro q hq hql
    rw [runReceive_append]
    dsimp only
    rw [(runReceive_overlong q _ hready hbuf hq hql).1]

/-- C6 counterexample: after the unterminated frame `<ab`, the immediately
following well-formed frame `<cd>` is not parsed to its payload `cd`;
instead its end marker terminates the pending frame and the single
(corrupted) payload `ab<cd` is delivered. -/
theorem framed_receiver_counterexample :
    (runReceive initRecvState ['<', 'a', 'b', '<', 'c', 'd', '>']).2 =
      [['a', 'b', '<', 'c', 'd']] ∧
    ['c', 'd'] ∉
      (runReceive initRecvState ['<', 'a', 'b', '<', 'c', 'd', '>']).2 := by
  constructor
  · decide
  · decide

/-- Witness for `framed_receiver`: the well-formed frame `<ab>` arriving
at boot parses to its payload. -/
theorem framed_receiver_witness :
    (runReceive initRecvState ['<', 'a', 'b', '>']).2 = [['a', 'b']] := by
  have h := framed_receiver [] ['x'] ['a', 'b'] ⟨rfl, rfl⟩
    (by decide) (by decide) (by decide)
  simpa [frameOf] using h.2.2.2.1
